import Mathlib

/-!
Shallow embedding of the NEWPV trajectory playback engine.

The engine lives in `balls.js` (module-level mutable state `balls`,
`trailDots`, `showTrail` plus the operations `clearBalls`,
`setTrailVisible`, `addBall`, `removeBallByType`, `replayAll`,
`animateBalls`).  A second revision of the same engine lives in
`main.js` ("P0 patch"), whose animation loop throttles trail dots with
a per-ball `lastTrailAt` timestamp and the constant `TRAIL_DROP_MS = 60`;
it is embedded further below under the `Main` namespace.

Numbers are modelled as exact rationals (`ℚ`); the JavaScript source
uses IEEE doubles, but every claim under study is about exact
arithmetic/structural behaviour, not rounding.  `Math.sqrt` (used only
to derive a fallback display speed in `addBall`) is not rational-valued,
so it is passed in as an explicit function parameter `msqrt`.
Rendering side effects (`scene.add`/`scene.remove`, `renderer.render`)
and the purely cosmetic spin rotation (`ball.rotateOnAxis`) have no
effect on the engine collections and are not part of the state;
`Bus.emit` is modelled as the list of telemetry snapshots produced by a
tick.
-/

namespace NEWPV

/-- A 3-component vector, as the `{x, y, z}` records of the source. -/
@[ext] structure Vec3 where
  x : ℚ
  y : ℚ
  z : ℚ
  deriving Repr, DecidableEq

/-- The already-parsed numeric pitch record handed to `addBall`.
`release_speed` is `Option` because the source checks
`typeof pitch.release_speed === 'number' && isFinite(...)` before using
it; `release_spin_rate` and `spin_axis` are `Option` because the source
defaults them with `|| 0`. -/
structure Pitch where
  release_speed : Option ℚ
  vx0 : ℚ
  vy0 : ℚ
  vz0 : ℚ
  ax : ℚ
  ay : ℚ
  az : ℚ
  release_pos_x : ℚ
  release_pos_z : ℚ
  release_extension : ℚ
  release_spin_rate : Option ℚ
  deriving Repr, DecidableEq

/-- `ball.userData` as set once by `addBall`: immutable trajectory data
plus `t0`, which is mutated only by `replayAll`.  The `spinAxis` vector
is omitted: it is consumed only by the cosmetic `rotateOnAxis` call. -/
@[ext] structure BallData where
  ballType : String
  t0 : ℚ
  mphDisplay : ℚ
  release : Vec3
  velocity : Vec3
  accel : Vec3
  spinRate : ℚ
  deriving Repr, DecidableEq

/-- A ball mesh: its `userData` record and its rendered `position`. -/
@[ext] structure Ball where
  userData : BallData
  position : Vec3
  deriving Repr, DecidableEq

/-- A trail dot: `dot.userData.type`, `dot.position`, and the sample
timestamp `t0` stored in the `trailDots` entry. -/
@[ext] structure TrailDot where
  dotType : String
  position : Vec3
  t0 : ℚ
  deriving Repr, DecidableEq

/-- One `frameStats` payload sent through `Bus.emit`. -/
@[ext] structure Telemetry where
  nBalls : ℕ
  mph : ℚ
  spin : ℤ
  deriving Repr, DecidableEq

/-- The module-level mutable state of `balls.js`. -/
@[ext] structure EngineState where
  balls : List Ball
  trailDots : List TrailDot
  showTrail : Bool
  deriving Repr, DecidableEq

/-- The initial module state: `balls = []`, `trailDots = []`,
`showTrail = false`. -/
def initState : EngineState := ⟨[], [], false⟩

/-- JavaScript `x.toFixed(1)` converted back to a number by unary `+`:
round to the nearest multiple of 1/10, ties toward the larger value. -/
def toFixed1 (q : ℚ) : ℚ := (⌊q * 10 + 1/2⌋ : ℤ) / 10

/-- JavaScript `Math.round`: round half toward positive infinity. -/
def jsRound (q : ℚ) : ℤ := ⌊q + 1/2⌋

/-- Source `clearBalls()`: removes every trail dot and every ball. -/
def clearBalls (st : EngineState) : EngineState :=
  { st with balls := [], trailDots := [] }

/-- Source `setTrailVisible(on)`: stores the flag; when turning the
trail off it also removes every trail dot. -/
def setTrailVisible (st : EngineState) (flag : Bool) : EngineState :=
  if flag then { st with showTrail := true }
  else { st with showTrail := false, trailDots := [] }

/-- Source `addBall(pitch, pitchType)` given the clock value `now`
(`clock.getElapsedTime()`) and the host `Math.sqrt` function `msqrt`:
builds the `userData` record (display speed preferring the dataset's
`release_speed`, falling back to `|v|·0.681818`), places the ball at
its release point and appends it to `balls` unconditionally. -/
def addBall (msqrt : ℚ → ℚ) (st : EngineState) (pitch : Pitch)
    (pitchType : String) (now : ℚ) : EngineState :=
  let v3dFtPerS := msqrt (pitch.vx0 ^ 2 + pitch.vy0 ^ 2 + pitch.vz0 ^ 2)
  let mphFallback := v3dFtPerS * 0.681818
  let mphDisplay := match pitch.release_speed with
    | some s => s
    | none => mphFallback
  let u : BallData :=
    { ballType := pitchType
      t0 := now
      mphDisplay := mphDisplay
      release := ⟨-pitch.release_pos_x, pitch.release_pos_z, -pitch.release_extension⟩
      velocity := ⟨-pitch.vx0, pitch.vz0, pitch.vy0⟩
      accel := ⟨-pitch.ax, pitch.az, pitch.ay⟩
      spinRate := (pitch.release_spin_rate).getD 0 }
  { st with balls := st.balls ++ [{ userData := u, position := u.release }] }

/-- One step of the `balls.filter` callback in `removeBallByType`: a
matching ball is dropped and the dots of its type are filtered out of
the accumulated `trailDots`; a non-matching ball is kept. -/
def removeStep (pitchType : String) (acc : List Ball × List TrailDot)
    (b : Ball) : List Ball × List TrailDot :=
  if b.userData.ballType = pitchType then
    (acc.1, acc.2.filter (fun d => d.dotType ≠ pitchType))
  else
    (acc.1 ++ [b], acc.2)

/-- Source `removeBallByType(pitchType)`: filters `balls`, and inside
the callback of each removed ball also filters `trailDots`. -/
def removeBallByType (st : EngineState) (pitchType : String) : EngineState :=
  let p := st.balls.foldl (removeStep pitchType) ([], st.trailDots)
  { st with balls := p.1, trailDots := p.2 }

/-- Source `replayAll()`: for every ball, reset `t0` to `now` and snap
the position back to the release point; then re-apply the current trail
visibility via `setTrailVisible(showTrail)`. -/
def replayAll (st : EngineState) (now : ℚ) : EngineState :=
  let st' := { st with balls := st.balls.map (fun (b : Ball) =>
    { userData := { b.userData with t0 := now }
      position := ⟨b.userData.release.x, b.userData.release.y, b.userData.release.z⟩ }) }
  setTrailVisible st' st'.showTrail

/-- The closed-form z coordinate `release.z + velocity.z·t + 0.5·accel.z·t²`
computed by `animateBalls` at clock value `now`. -/
def zAt (u : BallData) (now : ℚ) : ℚ :=
  u.release.z + u.velocity.z * (now - u.t0) + 0.5 * u.accel.z * (now - u.t0) * (now - u.t0)

/-- The full kinematic position `release + velocity·t + 0.5·accel·t²`
at elapsed time `t`. -/
def kinematicPos (u : BallData) (t : ℚ) : Vec3 :=
  ⟨u.release.x + u.velocity.x * t + 0.5 * u.accel.x * t * t,
   u.release.y + u.velocity.y * t + 0.5 * u.accel.y * t * t,
   u.release.z + u.velocity.z * t + 0.5 * u.accel.z * t * t⟩

/-- The per-ball body of the `for (const ball of balls)` loop in
`animateBalls`: if the computed z is past the boundary plane the loop
`continue`s (ball untouched, no dot); otherwise the position is set to
the kinematic value and, when the trail is shown, a dot is appended at
the new position with sample timestamp `now`. -/
def tickBall (showTrail : Bool) (now : ℚ) (b : Ball) : Ball × List TrailDot :=
  let t := now - b.userData.t0
  let z := b.userData.release.z + b.userData.velocity.z * t
    + 0.5 * b.userData.accel.z * t * t
  if z ≤ -60.5 then (b, [])
  else
    let pos : Vec3 :=
      ⟨b.userData.release.x + b.userData.velocity.x * t + 0.5 * b.userData.accel.x * t * t,
       b.userData.release.y + b.userData.velocity.y * t + 0.5 * b.userData.accel.y * t * t,
       z⟩
    ({ b with position := pos },
     if showTrail then [⟨b.userData.ballType, pos, now⟩] else [])

/-- Source `animateBalls(delta)` at clock value `now`: runs the per-ball
loop (collecting the dots each ball pushes, in ball order), culls dots
older than 9.5 s, and — when `balls` is non-empty — emits one
`frameStats` snapshot built from the last ball's stored `mphDisplay`
and `spinRate`.  `delta` feeds only the cosmetic spin rotation and so
does not touch the modelled state. -/
def animateBalls (st : EngineState) (now delta : ℚ) : EngineState × List Telemetry :=
  let stepped := st.balls.map (tickBall st.showTrail now)
  let newBalls := stepped.map Prod.fst
  let newDots := (stepped.map Prod.snd).flatten
  let dots := (st.trailDots ++ newDots).filter (fun d => ¬ now - d.t0 > 9.5)
  let emits : List Telemetry := match newBalls.getLast? with
    | some last =>
        [{ nBalls := newBalls.length
           mph := toFixed1 last.userData.mphDisplay
           spin := jsRound last.userData.spinRate }]
    | none => []
  (({ st with balls := newBalls, trailDots := dots }, emits) : EngineState × List Telemetry)

/-- Run a sequence of ticks at the given clock values (the state part of
`animateBalls`, discarding telemetry; `delta` is irrelevant to state). -/
def runTicks (st : EngineState) (ts : List ℚ) : EngineState :=
  ts.foldl (fun s nowv => (animateBalls s nowv 0).1) st

namespace Main

/-!
Embedding of the trail logic of the `main.js` revision ("P0 patch").
There each ball record carries `userData.lastTrailAt` (milliseconds,
initialised to 0 by `spawnPitch`) and the animation loop drops a trail
dot for a ball only when `now*1000 - lastTrailAt >= TRAIL_DROP_MS`
(`TRAIL_DROP_MS = 60`).  The throttle logic is entirely per ball, so it
is embedded as the per-ball slice of the loop body: the ball record
together with the trail dots that ball has pushed.
-/

/-- A `main.js` ball record: its path function (built by `spawnPitch`),
`startTime`, `duration`, the ad-hoc `_lastT` field and the per-ball
trail throttle timestamp `lastTrailAt` (ms). -/
structure MBall where
  mtype : String
  pathFn : ℚ → NEWPV.Vec3
  startTime : ℚ
  duration : ℚ
  lastT : ℚ
  lastTrailAt : ℚ
  position : NEWPV.Vec3

/-- A `main.js` trail dot: its owner's type, the sampled position and
its creation time `t0` (seconds). -/
structure MDot where
  mtype : String
  position : NEWPV.Vec3
  t0 : ℚ
  deriving Repr, DecidableEq

/-- The ball record `spawnPitch` pushes: `startTime` = current clock
time, `userData = { type, lastTrailAt: 0 }`. -/
def spawnPitch (ty : String) (pf : ℚ → NEWPV.Vec3) (dur now : ℚ) : MBall :=
  { mtype := ty, pathFn := pf, startTime := now
    duration := max 0.15 dur, lastT := 0, lastTrailAt := 0
    position := pf 0 }

/-- The per-ball body of the `animate` loop in `main.js` at clock value
`now` with the global `playing`/`showTrail` flags: computes the path
parameter `t`, stores it in `_lastT`, moves the mesh, drops a throttled
trail dot (guard `now*1000 - lastTrailAt >= TRAIL_DROP_MS`, updating
`lastTrailAt` to `now*1000` when a dot is dropped), and loops the ball
(`startTime = now`) once `t ≥ 1`.  The source performs these mutations
sequentially on the same record; they touch disjoint fields, so they
are written here as one composite update.  Returns the updated ball and
its dot list extended by the dot this tick pushed, if any. -/
def mTickBall (playing showTrail : Bool) (now : ℚ) (b : MBall)
    (dots : List MDot) : MBall × List MDot :=
  let t := if playing then (now - b.startTime) / b.duration else min 1 b.lastT
  let pos := b.pathFn (min 1 (max 0 t))
  let dropDot : Bool := showTrail && decide (now * 1000 - b.lastTrailAt ≥ 60)
  ({ b with
      lastT := t
      position := pos
      lastTrailAt := if dropDot then now * 1000 else b.lastTrailAt
      startTime := if t ≥ 1 then now else b.startTime },
   if dropDot then dots ++ [⟨b.mtype, pos, now⟩] else dots)

/-- Run the `main.js` loop body for one ball over a sequence of ticks,
each tick given its `playing`, `showTrail` and clock value. -/
def mRunTicks (b : MBall) (dots : List MDot)
    (ts : List (Bool × Bool × ℚ)) : MBall × List MDot :=
  ts.foldl (fun s tk => mTickBall tk.1 tk.2.1 tk.2.2 s.1 s.2) (b, dots)

end Main

/-! ### Basic lemmas about the per-ball tick -/

theorem tickBall_userData (s : Bool) (now : ℚ) (b : Ball) :
    ((tickBall s now b).1).userData = b.userData := by
  unfold tickBall
  dsimp only
  by_cases hz : b.userData.release.z + b.userData.velocity.z * (now - b.userData.t0)
      + 0.5 * b.userData.accel.z * (now - b.userData.t0) * (now - b.userData.t0) ≤ -60.5
  · rw [if_pos hz]
  · rw [if_neg hz]

theorem tickBall_frozen (s : Bool) (now : ℚ) (b : Ball)
    (h : zAt b.userData now ≤ -60.5) : tickBall s now b = (b, []) := by
  unfold zAt at h
  unfold tickBall
  dsimp only
  rw [if_pos h]

theorem tickBall_active_position (s : Bool) (now : ℚ) (b : Ball)
    (h : ¬ zAt b.userData now ≤ -60.5) :
    (tickBall s now b).1 =
      { b with position := kinematicPos b.userData (now - b.userData.t0) } := by
  unfold zAt at h
  unfold tickBall
  dsimp only
  rw [if_neg h]
  rfl

theorem tickBall_snd_of_not_show (now : ℚ) (b : Ball) :
    (tickBall false now b).2 = [] := by
  unfold tickBall
  dsimp only
  by_cases hz : b.userData.release.z + b.userData.velocity.z * (now - b.userData.t0)
      + 0.5 * b.userData.accel.z * (now - b.userData.t0) * (now - b.userData.t0) ≤ -60.5
  · rw [if_pos hz]
  · rw [if_neg hz]
    simp

theorem tickBall_snd_types (s : Bool) (now : ℚ) (b : Ball) (d : TrailDot)
    (h : d ∈ (tickBall s now b).2) :
    d.dotType = b.userData.ballType ∧ d.t0 = now := by
  unfold tickBall at h
  dsimp only at h
  by_cases hz : b.userData.release.z + b.userData.velocity.z * (now - b.userData.t0)
      + 0.5 * b.userData.accel.z * (now - b.userData.t0) * (now - b.userData.t0) ≤ -60.5
  · rw [if_pos hz] at h
    simp at h
  · rw [if_neg hz] at h
    dsimp only at h
    split at h
    · rcases List.mem_singleton.mp h with rfl
      exact ⟨rfl, rfl⟩
    · simp at h

/-! ### Structure lemmas about a tick of the whole engine -/

theorem animateBalls_balls (st : EngineState) (now delta : ℚ) :
    (animateBalls st now delta).1.balls =
      st.balls.map (fun b => (tickBall st.showTrail now b).1) := by
  unfold animateBalls
  dsimp
  rw [List.map_map]
  rfl

theorem animateBalls_length (st : EngineState) (now delta : ℚ) :
    (animateBalls st now delta).1.balls.length = st.balls.length := by
  rw [animateBalls_balls, List.length_map]

theorem animateBalls_showTrail (st : EngineState) (now delta : ℚ) :
    (animateBalls st now delta).1.showTrail = st.showTrail := by
  unfold animateBalls
  rfl

theorem animateBalls_trailDots (st : EngineState) (now delta : ℚ) :
    (animateBalls st now delta).1.trailDots =
      (st.trailDots ++ ((st.balls.map (tickBall st.showTrail now)).map Prod.snd).flatten).filter
        (fun d => ¬ now - d.t0 > 9.5) := by
  unfold animateBalls
  rfl

/-! ### Characterisation of `removeBallByType` -/

theorem removeFold_fst (ty : String) (l : List Ball) (bs : List Ball)
    (ds : List TrailDot) :
    (l.foldl (removeStep ty) (bs, ds)).1
      = bs ++ l.filter (fun b => b.userData.ballType ≠ ty) := by
  induction l generalizing bs ds with
  | nil => simp
  | cons b l ih =>
    rw [List.foldl_cons]
    by_cases hb : b.userData.ballType = ty
    · rw [show removeStep ty (bs, ds) b
          = (bs, ds.filter (fun d => d.dotType ≠ ty)) by
        unfold removeStep; rw [if_pos hb]]
      rw [ih]
      simp [List.filter_cons, hb]
    · rw [show removeStep ty (bs, ds) b = (bs ++ [b], ds) by
        unfold removeStep; rw [if_neg hb]]
      rw [ih]
      simp [List.filter_cons, hb]

theorem removeFold_snd (ty : String) (l : List Ball) (bs : List Ball)
    (ds : List TrailDot) :
    (l.foldl (removeStep ty) (bs, ds)).2
      = if ∃ b ∈ l, b.userData.ballType = ty
        then ds.filter (fun d => d.dotType ≠ ty) else ds := by
  induction l generalizing bs ds with
  | nil => simp
  | cons b l ih =>
    rw [List.foldl_cons]
    by_cases hb : b.userData.ballType = ty
    · rw [show removeStep ty (bs, ds) b
          = (bs, ds.filter (fun d => d.dotType ≠ ty)) by
        unfold removeStep; rw [if_pos hb]]
      rw [ih]
      have hex : ∃ x ∈ b :: l, x.userData.ballType = ty := ⟨b, List.mem_cons_self b l, hb⟩
      rw [if_pos hex]
      split
      · simp [List.filter_filter]
      · rfl
    · rw [show removeStep ty (bs, ds) b = (bs ++ [b], ds) by
        unfold removeStep; rw [if_neg hb]]
      rw [ih]
      have : (∃ x ∈ b :: l, x.userData.ballType = ty) ↔ (∃ x ∈ l, x.userData.ballType = ty) := by
        constructor
        · rintro ⟨x, hx, hxt⟩
          rcases List.mem_cons.mp hx with rfl | hx'
          · exact absurd hxt hb
          · exact ⟨x, hx', hxt⟩
        · rintro ⟨x, hx, hxt⟩
          exact ⟨x, List.mem_cons_of_mem _ hx, hxt⟩
      rw [if_congr this rfl rfl]

theorem removeBallByType_eq (st : EngineState) (ty : String) :
    removeBallByType st ty =
      { st with
        balls := st.balls.filter (fun b => b.userData.ballType ≠ ty)
        trailDots := if ∃ b ∈ st.balls, b.userData.ballType = ty
                     then st.trailDots.filter (fun d => d.dotType ≠ ty)
                     else st.trailDots } := by
  unfold removeBallByType
  dsimp only
  ext1
  · rw [removeFold_fst]
    simp
  · rw [removeFold_snd]
  · rfl

/-! ### Ticks with the trail disabled -/

theorem newDots_of_not_show (now : ℚ) (l : List Ball) :
    ((l.map (tickBall false now)).map Prod.snd).flatten = ([] : List TrailDot) := by
  induction l with
  | nil => rfl
  | cons b l ih => simp [tickBall_snd_of_not_show, ih]

theorem animateBalls_trailDots_of_not_show (st : EngineState) (now delta : ℚ)
    (hs : st.showTrail = false) (hd : st.trailDots = []) :
    (animateBalls st now delta).1.trailDots = [] := by
  rw [animateBalls_trailDots, hd, hs, newDots_of_not_show]
  rfl

theorem runTicks_nil (st : EngineState) : runTicks st [] = st := rfl

theorem runTicks_cons (st : EngineState) (τ : ℚ) (ts : List ℚ) :
    runTicks st (τ :: ts) = runTicks (animateBalls st τ 0).1 ts := rfl

/-! ### Operation sequences and the trail-ownership invariant -/

/-- The engine's public operations, as issued by the UI layer. -/
inductive Op where
  | spawn (pitch : Pitch) (pitchType : String) (now : ℚ)
  | remove (pitchType : String)
  | clear
  | replay (now : ℚ)
  | setTrail (flag : Bool)
  | tick (now delta : ℚ)

/-- Interpret one operation on the engine state. -/
def applyOp (msqrt : ℚ → ℚ) (st : EngineState) : Op → EngineState
  | Op.spawn p ty now => addBall msqrt st p ty now
  | Op.remove ty => removeBallByType st ty
  | Op.clear => clearBalls st
  | Op.replay now => replayAll st now
  | Op.setTrail f => setTrailVisible st f
  | Op.tick now d => (animateBalls st now d).1

/-- Run a sequence of operations from the initial module state. -/
def runOps (msqrt : ℚ → ℚ) (ops : List Op) : EngineState :=
  ops.foldl (applyOp msqrt) initState

/-- Every trail dot is owned by some currently active ball. -/
def OwnersActive (st : EngineState) : Prop :=
  ∀ d ∈ st.trailDots, ∃ b ∈ st.balls, b.userData.ballType = d.dotType

theorem ownersActive_applyOp (msqrt : ℚ → ℚ) (st : EngineState) (op : Op)
    (h : OwnersActive st) : OwnersActive (applyOp msqrt st op) := by
  cases op with
  | spawn p ty now =>
    intro d hd
    rcases h d hd with ⟨b, hb, hbt⟩
    exact ⟨b, List.mem_append_left _ hb, hbt⟩
  | remove ty =>
    rw [applyOp, removeBallByType_eq]
    intro d hd
    dsimp only at hd ⊢
    by_cases hex : ∃ b ∈ st.balls, b.userData.ballType = ty
    · rw [if_pos hex] at hd
      rcases List.mem_filter.mp hd with ⟨hd', hdt⟩
      rcases h d hd' with ⟨b, hb, hbt⟩
      refine ⟨b, List.mem_filter.mpr ⟨hb, ?_⟩, hbt⟩
      simpa [hbt] using hdt
    · rw [if_neg hex] at hd
      rcases h d hd with ⟨b, hb, hbt⟩
      refine ⟨b, List.mem_filter.mpr ⟨hb, ?_⟩, hbt⟩
      simp only [decide_eq_true_eq]
      intro hbty
      exact hex ⟨b, hb, hbty⟩
  | clear =>
    intro d hd
    simp only [applyOp, clearBalls] at hd
    simp at hd
  | replay now =>
    rw [applyOp]
    unfold replayAll setTrailVisible
    dsimp only
    cases hs : st.showTrail with
    | false =>
      rw [if_neg (by simp)]
      intro d hd
      simp at hd
    | true =>
      rw [if_pos (by simp)]
      intro d hd
      dsimp only at hd
      rcases h d hd with ⟨b, hb, hbt⟩
      exact ⟨_, List.mem_map.mpr ⟨b, hb, rfl⟩, hbt⟩
  | setTrail f =>
    rw [applyOp]
    unfold setTrailVisible
    cases f with
    | false =>
      rw [if_neg (by simp)]
      intro d hd
      simp at hd
    | true =>
      rw [if_pos (by simp)]
      exact h
  | tick now delta =>
    intro d hd
    simp only [applyOp] at hd ⊢
    rw [animateBalls_trailDots] at hd
    rcases List.mem_filter.mp hd with ⟨hd', _⟩
    rw [animateBalls_balls]
    rcases List.mem_append.mp hd' with hold | hnew
    · rcases h d hold with ⟨b, hb, hbt⟩
      refine ⟨(tickBall st.showTrail now b).1, List.mem_map.mpr ⟨b, hb, rfl⟩, ?_⟩
      rw [tickBall_userData]
      exact hbt
    · rcases List.mem_flatten.mp hnew with ⟨ds, hds, hdds⟩
      rcases List.mem_map.mp hds with ⟨pr, hpr, rfl⟩
      rcases List.mem_map.mp hpr with ⟨b, hb, rfl⟩
      refine ⟨(tickBall st.showTrail now b).1, List.mem_map.mpr ⟨b, hb, rfl⟩, ?_⟩
      rw [tickBall_userData]
      exact ((tickBall_snd_types _ _ _ _ hdds).1).symm

theorem ownersActive_foldl (msqrt : ℚ → ℚ) (ops : List Op) (st : EngineState)
    (h : OwnersActive st) : OwnersActive (ops.foldl (applyOp msqrt) st) := by
  induction ops generalizing st with
  | nil => exact h
  | cons op ops ih => exact ih _ (ownersActive_applyOp msqrt st op h)

/-! ### The trail throttle of the `main.js` revision -/

/-- Invariant carried by one `main.js` ball and its trail dots: the
dots are in chronological order at least 60 ms apart, and none is newer
than the ball's `lastTrailAt` timestamp. -/
def MainInv (b : Main.MBall) (dots : List Main.MDot) : Prop :=
  dots.Pairwise (fun d e => d.t0 * 1000 + 60 ≤ e.t0 * 1000) ∧
  ∀ d ∈ dots, d.t0 * 1000 ≤ b.lastTrailAt

theorem mTickBall_inv (playing s : Bool) (now : ℚ) (b : Main.MBall)
    (dots : List Main.MDot) (h : MainInv b dots) :
    MainInv (Main.mTickBall playing s now b dots).1
      (Main.mTickBall playing s now b dots).2 := by
  rcases h with ⟨hpw, hle⟩
  unfold Main.mTickBall
  dsimp only
  by_cases hc : (s && decide (now * 1000 - b.lastTrailAt ≥ 60)) = true
  · rw [if_pos hc, if_pos hc]
    rcases Bool.and_eq_true_iff.mp hc with ⟨-, hge⟩
    have hge' : now * 1000 - b.lastTrailAt ≥ 60 := of_decide_eq_true hge
    have hsep : ∀ d ∈ dots, d.t0 * 1000 + 60 ≤ now * 1000 := by
      intro d hd
      have h1 := hle d hd
      linarith
    constructor
    · rw [List.pairwise_append]
      refine ⟨hpw, List.pairwise_singleton _ _, ?_⟩
      intro d hd e he
      rcases List.mem_singleton.mp he with rfl
      exact hsep d hd
    · intro d hd
      rcases List.mem_append.mp hd with hdo | hdn
      · have := hsep d hdo
        linarith
      · rcases List.mem_singleton.mp hdn with rfl
        exact le_refl _
  · rw [if_neg hc, if_neg hc]
    exact ⟨hpw, fun d hd => hle d hd⟩

theorem mRunTicks_inv (b : Main.MBall) (dots : List Main.MDot)
    (ts : List (Bool × Bool × ℚ)) (h : MainInv b dots) :
    MainInv (Main.mRunTicks b dots ts).1 (Main.mRunTicks b dots ts).2 := by
  induction ts generalizing b dots with
  | nil => exact h
  | cons tk ts ih =>
    exact ih _ _ (mTickBall_inv tk.1 tk.2.1 tk.2.2 b dots h)

/-! ### Concrete fixtures for counterexamples and witnesses -/

/-- A stand-in for the host `Math.sqrt`; the fixtures below all carry a
dataset `release_speed`, so the fallback path is never taken and the
value of this function is irrelevant. -/
def msqrt0 : ℚ → ℚ := fun _ => 0

/-- A pitch whose z-trajectory dips past the boundary plane and comes
back: `velocity.z = -243`, `accel.z = 486` (accelerating toward the
viewer), so `z(t) = -243·t + 243·t²` with minimum `-60.75 ≤ -60.5`. -/
def pitchBoundary : Pitch := ⟨some 95, 0, -243, 0, 0, 486, 0, 0, 0, 0, none⟩

/-- A pitch that stays at the origin forever (`z(t) = 0 > -60.5`). -/
def pitchStill : Pitch := ⟨some 95, 0, 0, 0, 0, 0, 0, 0, 0, 0, some 2200⟩

/-- Engine with one stationary ball spawned at clock time 0. -/
def stillState : EngineState := addBall msqrt0 initState pitchStill "FF 1" 0

/-- Boundary-dipping ball spawned at clock time 0. -/
def boundaryState0 : EngineState := addBall msqrt0 initState pitchBoundary "SL 3" 0

/-- `boundaryState0` after a tick at clock 1/2 (z = -60.75, frozen). -/
def boundaryState1 : EngineState := (animateBalls boundaryState0 (1/2) 0).1

/-- `boundaryState1` after a tick at clock 9/10 (z = -21.87 again). -/
def boundaryState2 : EngineState := (animateBalls boundaryState1 (9/10) 0).1

/-- Stationary ball, trail enabled, ticked at 10 ms and 20 ms. -/
def trailState : EngineState :=
  runTicks (setTrailVisible stillState true) [1/100, 2/100]

/-- Stationary ball, trail enabled, one tick at 10 ms (one dot). -/
def oneDotState : EngineState :=
  runTicks (setTrailVisible stillState true) [1/100]

/-! ### Claim theorems -/

/-- C1: for every projectile that is not past the boundary plane (the
"active" state) and elapsed time `t = now − startTime ≥ 0`, the tick
operation `animateBalls` sets its position to exactly
`releasePosition + initialVelocity·t + 0.5·acceleration·t²` component
wise, and that value depends only on the release position, the initial
velocity and the acceleration (no other mutable trajectory state). -/
theorem C1_tick_position_kinematic (st : EngineState) (now delta : ℚ) (i : ℕ)
    (h : i < st.balls.length)
    (ht : 0 ≤ now - (st.balls.get ⟨i, h⟩).userData.t0)
    (hz : ¬ zAt (st.balls.get ⟨i, h⟩).userData now ≤ -60.5) :
    ∃ h' : i < (animateBalls st now delta).1.balls.length,
      ((animateBalls st now delta).1.balls.get ⟨i, h'⟩).position
        = kinematicPos (st.balls.get ⟨i, h⟩).userData
            (now - (st.balls.get ⟨i, h⟩).userData.t0)
      ∧ ∀ u v : BallData, u.release = v.release → u.velocity = v.velocity →
          u.accel = v.accel → ∀ t : ℚ, kinematicPos u t = kinematicPos v t := by
  have hlen : i < (animateBalls st now delta).1.balls.length := by
    rw [animateBalls_length]
    exact h
  refine ⟨hlen, ?_, ?_⟩
  · have hget : (animateBalls st now delta).1.balls.get ⟨i, hlen⟩
        = (tickBall st.showTrail now (st.balls.get ⟨i, h⟩)).1 := by
      have := animateBalls_balls st now delta
      rw [List.get_of_eq this, List.get_map]
    rw [hget, tickBall_active_position _ _ _ hz]
  · intro u v hr hv ha t
    unfold kinematicPos
    rw [hr, hv, ha]

/-- C1 witness: the stationary ball of `stillState` ticked at clock 1
lands exactly at its kinematic position. -/
theorem C1_witness :
    ∃ h' : 0 < (animateBalls stillState 1 0).1.balls.length,
      ((animateBalls stillState 1 0).1.balls.get ⟨0, h'⟩).position
        = kinematicPos ((stillState.balls.get ⟨0, by decide⟩).userData)
            (1 - (stillState.balls.get ⟨0, by decide⟩).userData.t0)
      ∧ ∀ u v : BallData, u.release = v.release → u.velocity = v.velocity →
          u.accel = v.accel → ∀ t : ℚ, kinematicPos u t = kinematicPos v t :=
  C1_tick_position_kinematic stillState 1 0 0 (by decide)
    (by norm_num [stillState, addBall, initState, msqrt0, pitchStill])
    (by norm_num [stillState, addBall, initState, msqrt0, pitchStill, zAt])

/-- C2 counterexample: in `boundaryState0` the tick at clock 1/2
computes z = -60.75 ≤ -60.5 (past the boundary) and leaves the position
frozen, yet the later tick at clock 9/10 — with no `replay` or
`remove`/`spawn` in between — moves the ball again, because the
boundary test is recomputed from the closed-form z each tick and this
trajectory (acceleration.z = 486 > 0) re-enters z > -60.5. -/
theorem C2_counterexample :
    (∃ b ∈ boundaryState0.balls, zAt b.userData (1/2) ≤ -60.5 ∧ 0 < b.userData.accel.z) ∧
    boundaryState1.balls.map (fun b => b.position)
      = boundaryState0.balls.map (fun b => b.position) ∧
    boundaryState2.balls.map (fun b => b.position)
      ≠ boundaryState1.balls.map (fun b => b.position) := by
  refine ⟨?_, ?_, ?_⟩ <;>
    norm_num [boundaryState0, boundaryState1, boundaryState2, addBall, initState,
      msqrt0, pitchBoundary, animateBalls, tickBall, zAt]

/-- C2 amended: a projectile is skipped (position and all other fields
untouched) on every tick whose recomputed closed-form z is past the
boundary plane; hence it stays frozen across any sequence of ticks as
long as that per-tick condition holds, but the freeze is not a sticky
state — the original claim's "for all later ticks regardless of the
sign of acceleration.z" fails. -/
theorem C2_frozen_while_past_boundary (st : EngineState) (ts : List ℚ) (i : ℕ)
    (h : i < st.balls.length)
    (hz : ∀ τ ∈ ts, zAt (st.balls.get ⟨i, h⟩).userData τ ≤ -60.5) :
    ∃ h' : i < (runTicks st ts).balls.length,
      (runTicks st ts).balls.get ⟨i, h'⟩ = st.balls.get ⟨i, h⟩ := by
  induction ts generalizing st with
  | nil => exact ⟨h, rfl⟩
  | cons τ ts ih =>
    rw [runTicks_cons]
    have hlen : i < (animateBalls st τ 0).1.balls.length := by
      rw [animateBalls_length]
      exact h
    have hget : (animateBalls st τ 0).1.balls.get ⟨i, hlen⟩ = st.balls.get ⟨i, h⟩ := by
      have := animateBalls_balls st τ 0
      rw [List.get_of_eq this, List.get_map,
        tickBall_frozen _ _ _ (hz τ (List.mem_cons_self τ ts))]
    rcases ih (animateBalls st τ 0).1 hlen (by
      rw [hget]
      exact fun τ' hτ' => hz τ' (List.mem_cons_of_mem _ hτ')) with ⟨h'', hh⟩
    exact ⟨h'', by rw [hh, hget]⟩

/-- C2 witness: the boundary-dipping ball, whose z stays past the plane
at clock times 1/2 and 26/50, is untouched by ticks at those times. -/
theorem C2_witness :
    ∃ h' : 0 < (runTicks boundaryState0 [1/2, 26/50]).balls.length,
      (runTicks boundaryState0 [1/2, 26/50]).balls.get ⟨0, h'⟩
        = boundaryState0.balls.get ⟨0, by decide⟩ :=
  C2_frozen_while_past_boundary boundaryState0 [1/2, 26/50] 0 (by decide)
    (by norm_num [boundaryState0, addBall, initState, msqrt0, pitchBoundary, zAt])

/-- C3 counterexample: with the trail enabled, the `animateBalls` tick
of `balls.js` appends a trail sample on every tick — two ticks 10 ms
apart yield two samples for the same projectile 10 ms < 60 ms apart. -/
theorem C3_counterexample :
    trailState.trailDots.map (fun d => (d.dotType, d.t0))
      = [("FF 1", 1/100), ("FF 1", 2/100)] ∧
    ((2 : ℚ)/100 - 1/100) * 1000 < 60 := by
  constructor
  · norm_num [trailState, stillState, runTicks, setTrailVisible, addBall, initState,
      msqrt0, pitchStill, animateBalls, tickBall]
  · norm_num

/-- C3 amended: the 60 ms per-projectile throttle holds for the
`main.js` revision's animate loop (the `lastTrailAt` guard), not for
`balls.js`'s `animateBalls`, which appends a sample on every tick while
trailing is enabled: for any sequence of ticks on a spawned ball, the
trail samples it accumulates are pairwise at least 60 ms apart. -/
theorem C3_main_trail_throttle (ty : String) (pf : ℚ → Vec3) (dur now0 : ℚ)
    (ts : List (Bool × Bool × ℚ)) :
    ((Main.mRunTicks (Main.spawnPitch ty pf dur now0) [] ts).2).Pairwise
      (fun d e => d.t0 * 1000 + 60 ≤ e.t0 * 1000) :=
  (mRunTicks_inv (Main.spawnPitch ty pf dur now0) [] ts
    ⟨List.Pairwise.nil, by simp⟩).1

/-- C4 counterexample: with trailing enabled and one trail sample held,
`replayAll` does not clear the trail (it merely re-applies the current
visibility, which clears only when the trail is off), contradicting
"in every case removes all trail samples". -/
theorem C4_counterexample :
    oneDotState.showTrail = true ∧
    oneDotState.trailDots ≠ [] ∧
    (replayAll oneDotState (1/5)).trailDots = oneDotState.trailDots := by
  refine ⟨rfl, ?_, ?_⟩ <;>
    norm_num [oneDotState, stillState, runTicks, setTrailVisible, addBall, initState,
      msqrt0, pitchStill, animateBalls, tickBall, replayAll]

/-- C4 amended: `replayAll` resets every ball's `startTime` to the
current clock time and snaps its position back to its release point,
leaves the velocity, acceleration, id, display speed and spin rate
unchanged, and clears the trail samples only when trailing is currently
disabled; with trailing enabled all samples persist. -/
theorem C4_replay (st : EngineState) (now : ℚ) (i : ℕ) (h : i < st.balls.length) :
    (∃ h' : i < (replayAll st now).balls.length,
      ((replayAll st now).balls.get ⟨i, h'⟩).userData.t0 = now ∧
      ((replayAll st now).balls.get ⟨i, h'⟩).position
        = (st.balls.get ⟨i, h⟩).userData.release ∧
      ((replayAll st now).balls.get ⟨i, h'⟩).userData.velocity
        = (st.balls.get ⟨i, h⟩).userData.velocity ∧
      ((replayAll st now).balls.get ⟨i, h'⟩).userData.accel
        = (st.balls.get ⟨i, h⟩).userData.accel ∧
      ((replayAll st now).balls.get ⟨i, h'⟩).userData.ballType
        = (st.balls.get ⟨i, h⟩).userData.ballType ∧
      ((replayAll st now).balls.get ⟨i, h'⟩).userData.mphDisplay
        = (st.balls.get ⟨i, h⟩).userData.mphDisplay ∧
      ((replayAll st now).balls.get ⟨i, h'⟩).userData.spinRate
        = (st.balls.get ⟨i, h⟩).userData.spinRate) ∧
    (replayAll st now).trailDots = (if st.showTrail then st.trailDots else []) ∧
    (replayAll st now).showTrail = st.showTrail := by
  have hballs : (replayAll st now).balls = st.balls.map (fun (b : Ball) =>
      { userData := { b.userData with t0 := now }
        position := ⟨b.userData.release.x, b.userData.release.y, b.userData.release.z⟩ }) := by
    unfold replayAll setTrailVisible
    dsimp only
    cases hs : st.showTrail with
    | false => rw [if_neg (by simp)]
    | true => rw [if_pos (by simp)]
  have hlen : i < (replayAll st now).balls.length := by
    rw [hballs, List.length_map]
    exact h
  constructor
  · refine ⟨hlen, ?_⟩
    rw [List.get_of_eq hballs, List.get_map]
    exact ⟨rfl, rfl, rfl, rfl, rfl, rfl, rfl⟩
  · unfold replayAll setTrailVisible
    dsimp only
    cases hs : st.showTrail with
    | false =>
      rw [if_neg (by simp)]
      exact ⟨rfl, rfl⟩
    | true =>
      rw [if_pos (by simp)]
      exact ⟨rfl, rfl⟩

/-- C4 witness: replay of `oneDotState` at clock 1/5 resets the single
ball and (trailing being enabled) keeps its trail sample. -/
theorem C4_witness :
    (∃ h' : 0 < (replayAll oneDotState (1/5)).balls.length,
      ((replayAll oneDotState (1/5)).balls.get ⟨0, h'⟩).userData.t0 = 1/5 ∧
      ((replayAll oneDotState (1/5)).balls.get ⟨0, h'⟩).position
        = (oneDotState.balls.get ⟨0, by decide⟩).userData.release ∧
      ((replayAll oneDotState (1/5)).balls.get ⟨0, h'⟩).userData.velocity
        = (oneDotState.balls.get ⟨0, by decide⟩).userData.velocity ∧
      ((replayAll oneDotState (1/5)).balls.get ⟨0, h'⟩).userData.accel
        = (oneDotState.balls.get ⟨0, by decide⟩).userData.accel ∧
      ((replayAll oneDotState (1/5)).balls.get ⟨0, h'⟩).userData.ballType
        = (oneDotState.balls.get ⟨0, by decide⟩).userData.ballType ∧
      ((replayAll oneDotState (1/5)).balls.get ⟨0, h'⟩).userData.mphDisplay
        = (oneDotState.balls.get ⟨0, by decide⟩).userData.mphDisplay ∧
      ((replayAll oneDotState (1/5)).balls.get ⟨0, h'⟩).userData.spinRate
        = (oneDotState.balls.get ⟨0, by decide⟩).userData.spinRate) ∧
    (replayAll oneDotState (1/5)).trailDots
      = (if oneDotState.showTrail then oneDotState.trailDots else []) ∧
    (replayAll oneDotState (1/5)).showTrail = oneDotState.showTrail :=
  C4_replay oneDotState (1/5) 0 (by decide)

/-- C5 counterexample: `addBall` performs no duplicate check — spawning
the same id "FF 1" twice yields two active projectiles with that id,
so spawn with an existing id is not a no-op and ids are not unique. -/
theorem C5_counterexample :
    (addBall msqrt0 stillState pitchStill "FF 1" (1/10)).balls.length = 2 ∧
    (addBall msqrt0 stillState pitchStill "FF 1" (1/10)).balls.map
      (fun b => b.userData.ballType) = ["FF 1", "FF 1"] := by
  decide

/-- C5 amended: `addBall` appends a new projectile unconditionally
(start time = current clock, placed at its release point, with the
requested id), whether or not a projectile with the same id is already
active; id uniqueness is enforced only by the UI checkbox wiring, not
by the engine. -/
theorem C5_spawn_appends (msqrt : ℚ → ℚ) (st : EngineState) (p : Pitch)
    (ty : String) (now : ℚ) :
    ∃ nb : Ball, (addBall msqrt st p ty now).balls = st.balls ++ [nb] ∧
      nb.userData.ballType = ty ∧ nb.userData.t0 = now ∧
      nb.position = nb.userData.release := by
  exact ⟨_, rfl, rfl, rfl, rfl⟩

/-- C6: `setTrailVisible false` empties the trail-dot collection
immediately, and any number of subsequent ticks (while trailing stays
disabled — ticks themselves never re-enable it) keep it empty and
record no new samples. -/
theorem C6_disable_trail (st : EngineState) (ts : List ℚ) :
    (setTrailVisible st false).trailDots = [] ∧
    (runTicks (setTrailVisible st false) ts).trailDots = [] ∧
    (runTicks (setTrailVisible st false) ts).showTrail = false := by
  have hbase : (setTrailVisible st false).trailDots = []
      ∧ (setTrailVisible st false).showTrail = false := by
    unfold setTrailVisible
    rw [if_neg (by simp)]
    exact ⟨rfl, rfl⟩
  have hrun : ∀ (ts : List ℚ) (s : EngineState), s.trailDots = [] → s.showTrail = false →
      (runTicks s ts).trailDots = [] ∧ (runTicks s ts).showTrail = false := by
    intro ts
    induction ts with
    | nil => exact fun s h1 h2 => ⟨h1, h2⟩
    | cons τ ts ih =>
      intro s h1 h2
      rw [runTicks_cons]
      exact ih _ (animateBalls_trailDots_of_not_show s τ 0 h2 h1)
        (by rw [animateBalls_showTrail]; exact h2)
  exact ⟨hbase.1, (hrun ts _ hbase.1 hbase.2).1, (hrun ts _ hbase.1 hbase.2).2⟩

/-- C7: `removeBallByType` is idempotent, a no-op when no active ball
has the id, and — when a ball with the id is active — removes exactly
the balls with that id and exactly the trail dots owned by that id,
leaving everything else (including the trail flag) unchanged. -/
theorem C7_remove (st : EngineState) (ty : String) :
    removeBallByType (removeBallByType st ty) ty = removeBallByType st ty ∧
    ((∀ b ∈ st.balls, b.userData.ballType ≠ ty) → removeBallByType st ty = st) ∧
    ((∃ b ∈ st.balls, b.userData.ballType = ty) →
      (removeBallByType st ty).balls
        = st.balls.filter (fun b => b.userData.ballType ≠ ty) ∧
      (removeBallByType st ty).trailDots
        = st.trailDots.filter (fun d => d.dotType ≠ ty)) ∧
    (removeBallByType st ty).showTrail = st.showTrail := by
  refine ⟨?_, ?_, ?_, ?_⟩
  · rw [removeBallByType_eq st ty, removeBallByType_eq]
    dsimp only
    have hnone : ¬ ∃ b ∈ st.balls.filter (fun b => b.userData.ballType ≠ ty),
        b.userData.ballType = ty := by
      rintro ⟨b, hb, hbt⟩
      rcases List.mem_filter.mp hb with ⟨-, hne⟩
      rw [decide_eq_true_eq] at hne
      exact hne hbt
    rw [if_neg hnone]
    have hfix : (st.balls.filter (fun b => b.userData.ballType ≠ ty)).filter
        (fun b => b.userData.ballType ≠ ty)
        = st.balls.filter (fun b => b.userData.ballType ≠ ty) := by
      apply List.filter_eq_self.mpr
      intro b hb
      exact (List.mem_filter.mp hb).2
    rw [hfix]
  · intro hall
    rw [removeBallByType_eq]
    have hnone : ¬ ∃ b ∈ st.balls, b.userData.ballType = ty := by
      rintro ⟨b, hb, hbt⟩
      exact hall b hb hbt
    rw [if_neg hnone]
    have hfix : st.balls.filter (fun b => b.userData.ballType ≠ ty) = st.balls := by
      apply List.filter_eq_self.mpr
      intro b hb
      rw [decide_eq_true_eq]
      exact hall b hb
    rw [hfix]
  · intro hex
    rw [removeBallByType_eq]
    rw [if_pos hex]
    exact ⟨rfl, rfl⟩
  · rw [removeBallByType_eq]

/-- C7 witness: removing "FF 1" from `trailState` (one ball, two owned
trail dots) filters both lists, and removing again changes nothing. -/
theorem C7_witness :
    removeBallByType (removeBallByType trailState "FF 1") "FF 1"
      = removeBallByType trailState "FF 1" ∧
    (removeBallByType trailState "FF 1").balls
      = trailState.balls.filter (fun b => b.userData.ballType ≠ "FF 1") ∧
    (removeBallByType trailState "FF 1").trailDots
      = trailState.trailDots.filter (fun d => d.dotType ≠ "FF 1") := by
  have h := C7_remove trailState "FF 1"
  have hex : ∃ b ∈ trailState.balls, b.userData.ballType = "FF 1" := by
    norm_num [trailState, stillState, runTicks, setTrailVisible, addBall, initState,
      msqrt0, pitchStill, animateBalls, tickBall]
  exact ⟨h.1, (h.2.2.1 hex).1, (h.2.2.1 hex).2⟩

/-- Telemetry characterisation of a tick: what `animateBalls` emits is
determined by the last ball of the list. -/
theorem animateBalls_snd (st : EngineState) (now delta : ℚ) :
    (animateBalls st now delta).2 = match st.balls.getLast? with
      | some b => [{ nBalls := st.balls.length
                     mph := toFixed1 b.userData.mphDisplay
                     spin := jsRound b.userData.spinRate }]
      | none => [] := by
  unfold animateBalls
  dsimp only
  rw [List.map_map, List.getLast?_map]
  cases h : st.balls.getLast? with
  | none => rfl
  | some b =>
    simp [List.length_map, tickBall_userData, Function.comp]

/-- C8: every tick emits at most one telemetry snapshot; it is emitted
exactly when at least one projectile is active, and carries the count
of active projectiles plus the designated most-recent (last) ball's
stored display speed (rounded for display) and spin rate; the stored
`mphDisplay`/`spinRate` (indeed the whole `userData`) are never
recomputed or modified by ticks.  The emission is modelled as a pure
output value: nothing flows back into the engine state (fire-and-
forget, no acknowledgement or retry exists in the model or the code). -/
theorem C8_telemetry (st : EngineState) (now delta : ℚ) :
    (animateBalls st now delta).2.length ≤ 1 ∧
    (st.balls = [] → (animateBalls st now delta).2 = []) ∧
    (∀ b, st.balls.getLast? = some b →
      (animateBalls st now delta).2
        = [{ nBalls := st.balls.length
             mph := toFixed1 b.userData.mphDisplay
             spin := jsRound b.userData.spinRate }]) ∧
    (∀ i (h : i < st.balls.length),
      ∃ h' : i < (animateBalls st now delta).1.balls.length,
        ((animateBalls st now delta).1.balls.get ⟨i, h'⟩).userData
          = (st.balls.get ⟨i, h⟩).userData) := by
  refine ⟨?_, ?_, ?_, ?_⟩
  · rw [animateBalls_snd]
    cases st.balls.getLast? <;> simp
  · intro h
    rw [animateBalls_snd, h]
    rfl
  · intro b hb
    rw [animateBalls_snd, hb]
  · intro i h
    have hlen : i < (animateBalls st now delta).1.balls.length := by
      rw [animateBalls_length]
      exact h
    refine ⟨hlen, ?_⟩
    rw [List.get_of_eq (animateBalls_balls st now delta), List.get_map]
    exact tickBall_userData _ _ _

/-- The single ball of `stillState`, written out. -/
def stillBall : Ball :=
  ⟨⟨"FF 1", 0, 95, ⟨0, 0, 0⟩, ⟨0, 0, 0⟩, ⟨0, 0, 0⟩, 2200⟩, ⟨0, 0, 0⟩⟩

/-- C8 witness: ticking `stillState` emits exactly one snapshot with
count 1, display speed 95 and spin 2200. -/
theorem C8_witness :
    (animateBalls stillState 1 0).2.length ≤ 1 ∧
    (animateBalls stillState 1 0).2 = [{ nBalls := 1, mph := 95, spin := 2200 }] := by
  have h := C8_telemetry stillState 1 0
  refine ⟨h.1, ?_⟩
  have hb : stillState.balls.getLast? = some stillBall := by
    norm_num [stillState, addBall, initState, msqrt0, pitchStill, stillBall]
  rw [h.2.2.1 stillBall hb]
  norm_num [stillBall, toFixed1, jsRound, stillState, addBall, initState]

/-- C9: on a tick at clock value `now`, a held trail sample is removed
precisely when its age exceeds the 9.5 s lifetime: an over-age sample
does not survive the tick, and a sample at or under the threshold is
still held after the tick. -/
theorem C9_trail_lifetime (st : EngineState) (now delta : ℚ) (d : TrailDot)
    (hd : d ∈ st.trailDots) :
    (now - d.t0 > 9.5 → d ∉ (animateBalls st now delta).1.trailDots) ∧
    (now - d.t0 ≤ 9.5 → d ∈ (animateBalls st now delta).1.trailDots) := by
  constructor
  · intro hage hmem
    rw [animateBalls_trailDots] at hmem
    rcases List.mem_filter.mp hmem with ⟨-, hkeep⟩
    rw [decide_eq_true_eq] at hkeep
    exact hkeep hage
  · intro hage
    rw [animateBalls_trailDots]
    refine List.mem_filter.mpr ⟨List.mem_append_left _ hd, ?_⟩
    rw [decide_eq_true_eq]
    exact fun hgt => absurd hage (not_le.mpr hgt)

/-- The first trail dot of `trailState`, written out. -/
def dotW : TrailDot := ⟨"FF 1", ⟨0, 0, 0⟩, 1/100⟩

/-- C9 witness: the sample dropped at clock 1/100 is gone after a tick
at clock 238/25 = 9.52 (age 9.51 > 9.5). -/
theorem C9_witness : dotW ∉ (animateBalls trailState (238/25) 0).1.trailDots :=
  (C9_trail_lifetime trailState (238/25) 0 dotW
    (by norm_num [trailState, stillState, runTicks, setTrailVisible, addBall,
      initState, msqrt0, pitchStill, animateBalls, tickBall, dotW])).1
    (by norm_num [dotW])

/-- C10: after any sequence of spawn, remove, clear, replay,
setTrailVisible and tick operations from the initial module state,
every trail dot held by the engine is owned by a currently active
projectile (its `type` equals some active ball's id) — trail samples
never outlive the projectile that created them. -/
theorem C10_trail_owners_active (msqrt : ℚ → ℚ) (ops : List Op) :
    OwnersActive (runOps msqrt ops) :=
  ownersActive_foldl msqrt ops initState (by
    intro d hd
    simp [initState] at hd)

end NEWPV
